import Mathlib

/-!
Verification of the deterministic file-classification, validation and
manifest-ordering engine of the AnalizarEntregable repository.

The Python source consists of two revisions of the same Streamlit app,
`steamlit_Analizar_entregable.py` (called the "steam" revision below) and
`Apolo.py` (the "apolo" revision).  The functions embedded here are the
pure core: `numeric_key`, `extract_prefix_number`, `check_slash_terminators`,
`analyze_file`, `get_manifest_category`, `generate_manifest_content`,
`collect_and_order_files` and `collect_files_for_manifest`.

Modelling conventions:
* Python strings are Lean `String`s; character classes (`\s`, `\w`, `\d`,
  `str.lower`, `str.upper`, `str.strip`) are modelled on their ASCII
  behaviour, which coincides with Python's for the ASCII inputs the tool
  works with.
* Python's `float('inf')` sort key for names without a leading digit is
  modelled by `Option Nat` with `none` as the infinite key.
* Python's `sorted` (Timsort) is a stable sort; it is modelled by a stable
  insertion sort over the boolean `≤` of the corresponding Python sort key
  (any two stable sorts w.r.t. the same total preorder agree pointwise).
* Python `dict` grouping inserts keys in first-occurrence order and keeps
  each group's elements in input order; it is modelled by the pair
  (`firstOccurs` of the keys, `List.filter` for the members of one group).
* The filesystem walked by `os.walk` is modelled by the inductive
  `DirForest`; `os.walk` enumerates a directory's files and then recurses
  into its subdirectories (top-down order).
-/

/-- ASCII whitespace, the characters matched by Python's `\s` and stripped
by `str.strip()` (restricted to ASCII). -/
def isPySpace (c : Char) : Bool :=
  c = ' ' || c = '\t' || c = '\n' || c = '\x0d' || c = '\x0b' || c = '\x0c'

/-- ASCII word character, Python's `\w` restricted to ASCII. -/
def isWordChar (c : Char) : Bool :=
  c.isAlpha || c.isDigit || c = '_'

/-- Python `str.lower()` (ASCII). -/
def pyLower (s : String) : String := ⟨s.data.map Char.toLower⟩

/-- Python `str.upper()` (ASCII). -/
def pyUpper (s : String) : String := ⟨s.data.map Char.toUpper⟩

/-- Python `str.strip()`: remove leading and trailing whitespace. -/
def pyStrip (s : String) : String :=
  ⟨((s.data.dropWhile isPySpace).reverse.dropWhile isPySpace).reverse⟩

/-- Whether `needle` is a prefix of `hay` (character lists). -/
def isPrefixOfCl : List Char → List Char → Bool
  | [], _ => true
  | _ :: _, [] => false
  | a :: as, b :: bs => a = b && isPrefixOfCl as bs

/-- Whether `needle` occurs contiguously inside `hay` (character lists). -/
def isInfixOfCl (needle : List Char) : List Char → Bool
  | [] => needle.isEmpty
  | b :: rest => isPrefixOfCl needle (b :: rest) || isInfixOfCl needle rest

/-- Python's substring test `needle in hay`. -/
def containsSubstr (hay needle : String) : Bool :=
  isInfixOfCl needle.data hay.data

/-- Code-point lexicographic `≤` on character lists (Python string
comparison compares strings by code point). -/
def clLe : List Char → List Char → Bool
  | [], _ => true
  | _ :: _, [] => false
  | a :: as, b :: bs =>
    if a.toNat < b.toNat then true
    else if b.toNat < a.toNat then false
    else clLe as bs

/-- Python string `≤` (code-point lexicographic). -/
def strLe (a b : String) : Bool := clLe a.data b.data

/-- `≤` on `Option Nat` viewed as `Nat ∪ {∞}` with `none = ∞`; the order of
Python's numeric sort keys where `float('inf')` stands for "no leading
number". -/
def leNatInf : Option Nat → Option Nat → Bool
  | some a, some b => a ≤ b
  | some _, none => true
  | none, some _ => false
  | none, none => true

/-- `≤` on `Bool` with `false < true` (Python's `False < True`). -/
def boolLe (a b : Bool) : Bool := !a || b

/-- Value of a list of decimal digit characters. -/
def digitsVal (ds : List Char) : Nat :=
  ds.foldl (fun n c => n * 10 + (c.toNat - 48)) 0

/-- `numeric_key` / `extract_prefix_number`: the leading decimal digits of a
string as a number, or `none` (`float('inf')`) when the string does not
start with a digit.  Source: `re.match(r"(\d+)", s)`. -/
def numericKey (s : String) : Option Nat :=
  let ds := s.data.takeWhile Char.isDigit
  if ds.isEmpty then none else some (digitsVal ds)

/-- `os.path.splitext(name)[1]` for a bare file name: the suffix starting at
the last dot, except that dots in the leading run of dots never start an
extension. -/
def splitextExt (name : String) : String :=
  let cs := name.data
  let lead := (cs.takeWhile (fun c => c = '.')).length
  match cs.reverse.findIdx? (fun c => c = '.') with
  | none => ""
  | some k =>
    let idx := cs.length - 1 - k
    if lead ≤ idx then ⟨cs.drop idx⟩ else ""

/-- `pathlib.PurePath(name).suffix` for a bare file name: the part from the
last dot when that dot is neither the first nor the last character. -/
def pathSuffix (name : String) : String :=
  let cs := name.data
  match cs.reverse.findIdx? (fun c => c = '.') with
  | none => ""
  | some k =>
    let idx := cs.length - 1 - k
    if 0 < idx ∧ idx < cs.length - 1 then ⟨cs.drop idx⟩ else ""

/-- The part of a POSIX path after the last `/` (shared by
`os.path.basename` and `pathlib` name computations). -/
def afterLastSlash (s : String) : String :=
  ⟨(s.data.reverse.takeWhile (fun c => c ≠ '/')).reverse⟩

/-- The part of a POSIX path before the last `/`. -/
def beforeLastSlash (s : String) : String :=
  ⟨(s.data.reverse.dropWhile (fun c => c ≠ '/')).reverse.dropLast⟩

/-- `pathlib.PurePosixPath(s).name`: last path component (`""` for `"."`
and `""`). -/
def pathName (s : String) : String :=
  if s = "." || s = "" then "" else afterLastSlash s

/-- `os.path.basename(s)` (POSIX): the part after the last `/`
(`basename "." = "."`). -/
def osBasename (s : String) : String := afterLastSlash s

/-- `pathlib.PurePosixPath(s).parent.as_posix()` for a relative file path
produced by the collectors: everything before the last `/`, or `"."` when
the path has a single component. -/
def posixParent (s : String) : String :=
  if s.data.contains '/' then beforeLastSlash s else "."

/-- Split a character list at every occurrence of `sep` (Python
`str.split(sep)`). -/
def splitOnChar (sep : Char) : List Char → List (List Char)
  | [] => [[]]
  | c :: rest =>
    match splitOnChar sep rest with
    | [] => [[c]]
    | g :: gs => if c = sep then [] :: g :: gs else (c :: g) :: gs

/-- `pathlib.PurePosixPath(s).parts` for a relative path: the nonempty,
non-`"."` components separated by `/` (pathlib normalises empty and `.`
segments away). -/
def pathParts (s : String) : List String :=
  ((splitOnChar '/' s.data).map (fun cs => (⟨cs⟩ : String))).filter
    (fun p => p ≠ "" && p ≠ ".")

/-- `String.startsWith`, computed on the character lists. -/
def startsWithStr (s pre : String) : Bool := isPrefixOfCl pre.data s.data

/-- Join a directory prefix and a name with `/` (the empty prefix denotes
the archive root, whose entries are bare names). -/
def relJoin (pre name : String) : String :=
  if pre = "" then name else pre ++ "/" ++ name

/-- `os.path.join` for two nonempty POSIX components. -/
def osJoin (a b : String) : String := a ++ "/" ++ b

/-- Python `"\n".join(lines)`. -/
def joinLines : List String → String
  | [] => ""
  | [l] => l
  | l :: ls => l ++ "\n" ++ joinLines ls

/-! ### Stable sorting

Python's `sorted` is stable.  `stableSort le` is the stable insertion sort
with respect to the boolean relation `le`; a stable sort's output is
uniquely determined by the input list and the total preorder, so this
models `sorted(xs, key=k)` with `le a b = (k a ≤ k b)`. -/

/-- Insert `a` in front of the first element `b` with `le a b`. -/
def insertSorted (le : α → α → Bool) (a : α) : List α → List α
  | [] => [a]
  | b :: l => if le a b then a :: b :: l else b :: insertSorted le a l

/-- Stable insertion sort. -/
def stableSort (le : α → α → Bool) : List α → List α
  | [] => []
  | a :: l => insertSorted le a (stableSort le l)

theorem boolLe_trans (a b c : Bool) :
    boolLe a b = true → boolLe b c = true → boolLe a c = true := by
  cases a <;> cases b <;> cases c <;> simp [boolLe]

theorem boolLe_anti (a b : Bool) :
    boolLe a b = true → boolLe b a = true → a = b := by
  cases a <;> cases b <;> simp [boolLe]

/-- Lexicographic combination of two boolean orders via the first
component's equality: the order of Python tuple comparison when the
component orders are total, transitive and antisymmetric. -/
def lex2 {α β : Type} [DecidableEq α] (leA : α → α → Bool) (leB : β → β → Bool)
    (p q : α × β) : Bool :=
  if p.1 = q.1 then leB p.2 q.2 else leA p.1 q.1

/-! ### Validator: `check_slash_terminators` and `analyze_file`

The validator works on the list of lines returned by `readlines()`.
Whether the line strings carry their trailing newline is immaterial: the
newline is whitespace for both `str.strip()` and the regex's `\s*$`. -/

/-- On a reversed character list: the original text ends in `END`
(case-insensitively), i.e. the reversed list starts with `d`, `n`, `e`. -/
def hasEndSuffixRev : List Char → Bool
  | d :: n :: e :: _ => d.toLower = 'd' && n.toLower = 'n' && e.toLower = 'e'
  | _ => false

/-- `re.search(r'END(\s+\w+)?;\s*$', line, re.IGNORECASE)` as a boolean,
computed on the reversed character list.  Because the pattern is anchored
at the end of the line and `re.search` allows the match to start anywhere,
a match exists iff, after discarding trailing whitespace and then one `;`,
either (no identifier) the remaining text ends in `END`, or (identifier)
the remaining text ends in a nonempty word block, then at least one
whitespace character, then text ending in `END`.  The identifier is
necessarily the maximal word block before the `;` since its left neighbour
in the pattern is whitespace. -/
def endPatternMatchesRev (r : List Char) : Bool :=
  match r.dropWhile isPySpace with
  | c :: r2 =>
    if c = ';' then
      hasEndSuffixRev r2 ||
      (let w := r2.takeWhile isWordChar
       let r3 := r2.dropWhile isWordChar
       !w.isEmpty && !(r3.takeWhile isPySpace).isEmpty &&
         hasEndSuffixRev (r3.dropWhile isPySpace))
    else false
  | [] => false

/-- Whether a line matches the terminal-`END` pattern of
`check_slash_terminators`. -/
def endPatternMatches (line : String) : Bool :=
  endPatternMatchesRev line.data.reverse

/-- Index (from the front) of the last line matching the `END` pattern:
the backward scan `for i in range(len(lines)-1, -1, -1)` with `break`. -/
def lastIdxMatching : List String → Option Nat
  | [] => none
  | l :: ls =>
    match lastIdxMatching ls with
    | some j => some (j + 1)
    | none => if endPatternMatches l then some 0 else none

/-- A line skipped when looking for the terminating `/`: blank after
stripping, or a comment line starting with `--` or `/*`. -/
def isSkippable (l : String) : Bool :=
  pyStrip l = "" || startsWithStr (pyStrip l) "--" || startsWithStr (pyStrip l) "/*"

/-- The skip loop after the last `END;`: skip blank/comment lines; the
terminating slash is found iff the first non-skippable line strips to
exactly `/` (reaching end of file yields `false`). -/
def slashFollows : List String → Bool
  | [] => false
  | l :: ls => if isSkippable l then slashFollows ls else pyStrip l = "/"

/-- The extensions subject to the terminator check. -/
def terminatorExts : List String := [".pks", ".pkb", ".prc", ".fnc", ".trg"]

/-- The issue message `f"Línea {last_end_index+1}: Falta '/' al final
después del bloque END;."`. -/
def slashMissingMsg (n : Nat) : String :=
  "Línea " ++ toString n ++ ": Falta '/' al final después del bloque END;."

/-- `check_slash_terminators(lines, ext)` (identical in both revisions). -/
def checkSlashTerminators (lines : List String) (ext : String) : List String :=
  if terminatorExts.contains ext then
    match lastIdxMatching lines with
    | none => []
    | some i =>
      if slashFollows (lines.drop (i + 1)) then [] else [slashMissingMsg (i + 1)]
  else []

/-- The analysis of one collected file, as the UI loop performs it: the
extension is computed by `os.path.splitext(...)[1].lower()` and
`analyze_file` runs only `check_slash_terminators` on the file's lines
(steam revision; the apolo revision adds an eligibility pre-filter that
never changes the result because `check_slash_terminators` already returns
`[]` for extensions outside `terminatorExts`). -/
def analyzeFindings (filename : String) (lines : List String) : List String :=
  checkSlashTerminators lines (pyLower (splitextExt filename))

/-! ### Classifier and Manifest Generator -/

/-- `VALID_EXTS` (both revisions). -/
def VALID_EXTS : List String :=
  [".sql", ".pks", ".pkb", ".prc", ".fnc", ".vw", ".trg", ".seq"]

/-- `ALLOWED_EXTENSIONS_MANIFEST` of the steam revision. -/
def allowedManifestSteam : List String :=
  [".sql", ".pks", ".pkb", ".prc", ".fnc", ".trg", ".vw"]

/-- `ALLOWED_EXTENSIONS_MANIFEST` of the apolo revision (adds `.fmb`,
`.rdf`). -/
def allowedManifestApolo : List String :=
  [".sql", ".pks", ".pkb", ".prc", ".fnc", ".trg", ".vw", ".fmb", ".rdf"]

/-- `SQL_SPECIFIC_FOLDERS`. -/
def SQL_SPECIFIC_FOLDERS : List String :=
  ["scripts", "grants", "opciones", "indices", "tabla", "sequence"]

/-- The keys of `MANIFEST_CATEGORIES` in their definition (= iteration)
order. -/
def categoryOrder : List String :=
  ["scripts", "packages", "packagesbodies", "procedures", "functions",
   "views", "triggers"]

/-- The `header` field of each manifest category. -/
def categoryHeader : String → String
  | "scripts" => "-- Ejecucion de scripts sql"
  | "packages" => "-- Ejecucion de script creacion de packages"
  | "packagesbodies" => "-- Ejecucion de script creacion de packagesBodies"
  | "procedures" => "-- Ejecucion de script creacion de procedures"
  | "functions" => "-- Ejecucion de script creacion de funciones"
  | "views" => "-- Ejecucion de script creacion de views"
  | "triggers" => "-- Ejecucion de script creacion de triggers"
  | _ => ""

/-- The `extensions` field of each manifest category. -/
def categoryExts : String → List String
  | "scripts" => [".sql"]
  | "packages" => [".pks"]
  | "packagesbodies" => [".pkb"]
  | "procedures" => [".prc"]
  | "functions" => [".fnc"]
  | "views" => [".vw"]
  | "triggers" => [".trg"]
  | _ => []

/-- One record of `collected_files_data` (the CandidateFile of the spec).
`relative_path` is the dict's `relative_path_from_extracted`;
`absolute_path` is carried along for the copy step and never inspected by
the classifier, validator or generator. -/
structure FileData where
  absolute_path : String
  relative_path : String
  parent_folder_name : String
  prefix_num : Option Nat
  extension : String
  filename : String
deriving DecidableEq, Repr

/-- The first category (in definition order) whose extension set contains
`e` — the `for category_key, details in manifest_categories.items()` loop
of `get_manifest_category`. -/
def firstCatByExt (e : String) : Option String :=
  categoryOrder.find? (fun c => (categoryExts c).contains e)

/-- `is_in_script_like_folder`: some part of the relative path contains a
script-like keyword as a (case-insensitive) substring.  Note the parts
include the file name itself. -/
def isInScriptLike (fd : FileData) : Bool :=
  (pathParts fd.relative_path).any (fun part =>
    SQL_SPECIFIC_FOLDERS.any (fun kw => containsSubstr (pyLower part) (pyLower kw)))

/-- `get_manifest_category` of the steam revision: files in script-like
folders with an eligible extension are forced into `scripts`; otherwise
(and only when not in a script-like folder) the extension decides. -/
def getCatSteam (fd : FileData) : Option String :=
  let ext := pyLower fd.extension
  if isInScriptLike fd && allowedManifestSteam.contains ext then some "scripts"
  else if !isInScriptLike fd then firstCatByExt ext
  else none

/-- `get_manifest_category` of the apolo revision: the loop returns the
extension's category unconditionally (its `scripts` branch returns
`"scripts"` exactly when the extension is `.sql`, which is also what
`firstCatByExt` yields). -/
def getCatApolo (fd : FileData) : Option String :=
  firstCatByExt (pyLower fd.extension)

/-- `Path(relative_path).parent.as_posix()`: the original folder of a file. -/
def folderOf (fd : FileData) : String := posixParent fd.relative_path

/-- Folder sort: `sorted(folders, key=lambda x: numeric_key(Path(x).name))`. -/
def folderNameLe (a b : String) : Bool :=
  leNatInf (numericKey (pathName a)) (numericKey (pathName b))

/-- The keys of a Python dict built by insertion, i.e. the values of a list
in first-occurrence order. -/
def firstOccurs : List String → List String
  | [] => []
  | a :: l => a :: (firstOccurs l).filter (fun x => x ≠ a)

/-- In-category file sort key comparison: `(ext != ".pks", prefix, name)`
for `packages`/`packagesbodies`, `(prefix, name)` otherwise. -/
def catFileLe (cat : String) (x y : FileData) : Bool :=
  if cat = "packages" || cat = "packagesbodies" then
    lex2 boolLe (lex2 leNatInf strLe)
      (pyLower x.extension != ".pks", x.prefix_num, x.filename)
      (pyLower y.extension != ".pks", y.prefix_num, y.filename)
  else
    lex2 leNatInf strLe (x.prefix_num, x.filename) (y.prefix_num, y.filename)

/-- `Path("database", "plsql", schema_lower, category_key.lower(),
filename).as_posix()`; the category keys are already lower-case. -/
def manifestPath (schemaL cat filename : String) : String :=
  "database/plsql/" ++ schemaL ++ "/" ++ cat ++ "/" ++ filename

/-- The lines emitted for one category inside one original folder:
`none` when the folder holds no file of this category, otherwise the
category header followed by the sorted file paths. -/
def categoryBlock (schemaL : String) (getCat : FileData → Option String)
    (cat : String) (folderFiles : List FileData) : Option (List String) :=
  let fs := folderFiles.filter (fun fd => getCat fd == some cat)
  if fs.isEmpty then none
  else
    some (categoryHeader cat ::
      (stableSort (catFileLe cat) fs).map (fun fd => manifestPath schemaL cat fd.filename))

/-- The lines emitted for one original folder: a blank line precedes the
folder's first category block unless this is the very first folder of the
iteration; later category blocks of the same folder get no blank line. -/
def emitFolder (schemaL : String) (getCat : FileData → Option String)
    (isFirst : Bool) (folderFiles : List FileData) : List String :=
  let blocks := categoryOrder.filterMap (fun cat => categoryBlock schemaL getCat cat folderFiles)
  if blocks.isEmpty then [] else (if isFirst then [] else [""]) ++ blocks.flatten

/-- Iteration over the sorted original folders; the first-folder flag is
cleared after every folder, emitted or not. -/
def emitFolders (schemaL : String) (getCat : FileData → Option String) :
    Bool → List String → List FileData → List String
  | _, [], _ => []
  | isFirst, f :: rest, files =>
    emitFolder schemaL getCat isFirst (files.filter (fun fd => folderOf fd == f)) ++
      emitFolders schemaL getCat false rest files

/-- `generate_manifest_content` of the steam revision.  All input files
(categorised or not) are grouped by original folder; the folder keys are
in first-occurrence order and stably sorted by the numeric key of the
folder's base name.  The branch argument is accepted but never used in the
output. -/
def generateSteam (schema _branch : String) (files : List FileData) : String :=
  let schemaL := pyLower schema
  let sortedF := stableSort folderNameLe (firstOccurs (files.map folderOf))
  joinLines
    (("SCHEMA=" ++ pyUpper schema) :: "" :: emitFolders schemaL getCatSteam true sortedF files)

/-- `generate_manifest_content` of the apolo revision: identical except
that only files with a (non-`None`) manifest category enter the folder
grouping. -/
def generateApolo (schema _branch : String) (files : List FileData) : String :=
  let schemaL := pyLower schema
  let catFiles := files.filter (fun fd => (getCatApolo fd).isSome)
  let sortedF := stableSort folderNameLe (firstOccurs (catFiles.map folderOf))
  joinLines
    (("SCHEMA=" ++ pyUpper schema) :: "" :: emitFolders schemaL getCatApolo true sortedF catFiles)

/-! ### Collector: directory trees and the two `os.walk` traversals -/

/-- A forest of sibling directories in `os.walk` enumeration order:
either no directory, or a first directory — with its name, its plain file
names and the forest of its subdirectories — followed by the forest of its
remaining siblings.  (This right-nested shape is the standard structural
presentation of a rose forest.) -/
inductive DirForest : Type where
  | nil : DirForest
  | dir : String → List String → DirForest → DirForest → DirForest
deriving Repr, DecidableEq

/-- The pruning test `"rollback" in current_path.name.lower()`. -/
def containsRollback (name : String) : Bool :=
  containsSubstr (pyLower name) "rollback"

/-- Final sort key comparison of `collect_files_for_manifest`:
`(relative_path_from_extracted, prefix_num, filename_str)`. -/
def manifestLe (x y : FileData) : Bool :=
  lex2 strLe (lex2 leNatInf strLe)
    (x.relative_path, x.prefix_num, x.filename)
    (y.relative_path, y.prefix_num, y.filename)

/-- The record built for one file of the directory at relative path
`dirRel` (named `dirName`), if its extension is allowed. -/
def manifestEntry (allowed : List String) (absRoot dirRel dirName fn : String) :
    Option FileData :=
  let ext := pyLower (pathSuffix fn)
  if allowed.contains ext then
    some { absolute_path := osJoin absRoot (relJoin dirRel fn)
           relative_path := relJoin dirRel fn
           parent_folder_name := dirName
           prefix_num := numericKey fn
           extension := ext
           filename := fn }
  else none

/-- The `os.walk` of `collect_files_for_manifest` over a forest of sibling
directories whose parent has relative path `relPre` (`""` for the root).
A directory whose name contains `rollback` contributes no files and, via
`dirnames[:] = []`, none of its subtree. -/
def collectManifestWalk (allowed : List String) (absRoot : String) :
    String → DirForest → List FileData
  | _, DirForest.nil => []
  | relPre, DirForest.dir name fs subs rest =>
    (if containsRollback name then []
     else
       fs.filterMap (manifestEntry allowed absRoot (relJoin relPre name) name) ++
         collectManifestWalk allowed absRoot (relJoin relPre name) subs) ++
      collectManifestWalk allowed absRoot relPre rest

/-- `collect_files_for_manifest` before its final sort, on a root directory
named `rootName` with files `rootFiles` and subdirectory forest `subs`:
the root directory itself is walked first (files at relative path `fn`,
parent folder the root's own name), then the recursive walk. -/
def collectManifestRaw (allowed : List String) (absRoot rootName : String)
    (rootFiles : List String) (subs : DirForest) : List FileData :=
  if containsRollback rootName then []
  else
    rootFiles.filterMap (manifestEntry allowed absRoot "" rootName) ++
      collectManifestWalk allowed absRoot "" subs

/-- `collect_files_for_manifest`: the walk followed by the stable sort on
`(relative_path, prefix_num, filename)`. -/
def collectFilesForManifest (allowed : List String) (absRoot rootName : String)
    (rootFiles : List String) (subs : DirForest) : List FileData :=
  stableSort manifestLe (collectManifestRaw allowed absRoot rootName rootFiles subs)

/-- The eligible files of one directory for the analysis collector,
sorted by `numeric_key`: `sorted([f for f in files if ext(f) in
VALID_EXTS], key=numeric_key)`. -/
def validSorted (fs : List String) : List String :=
  stableSort (fun a b => leNatInf (numericKey a) (numericKey b))
    (fs.filter (fun f => VALID_EXTS.contains (pyLower (splitextExt f))))

/-- The `os.walk` of `collect_and_order_files` building `folder_map` in
walk order.  A `rollback`-named directory only has its own files skipped
(`continue`); the walk still descends into its subdirectories because this
revision of the loop never clears `dirnames`. -/
def analysisWalk : String → DirForest → List (String × List String)
  | _, DirForest.nil => []
  | relPre, DirForest.dir name fs subs rest =>
    (if containsRollback name then []
     else
       (let v := validSorted fs
        if v.isEmpty then [] else [(relJoin relPre name, v)])) ++
      analysisWalk (relJoin relPre name) subs ++ analysisWalk relPre rest

/-- `folder_map` of `collect_and_order_files` as an association list in
walk order; the root directory itself comes first, at relative path
`os.path.relpath(root, root) = "."`. -/
def analysisFolderMap (rootName : String) (rootFiles : List String)
    (subs : DirForest) : List (String × List String) :=
  (if containsRollback rootName then []
   else
     (let v := validSorted rootFiles
      if v.isEmpty then [] else [(".", v)])) ++
    analysisWalk "" subs

/-- Lookup in an association list (Python `dict[key]` for a present key,
`[]` otherwise). -/
def lookupGroup (m : List (String × List String)) (k : String) : List String :=
  match m.find? (fun p => p.1 == k) with
  | some p => p.2
  | none => []

/-- `ordered_folders` of `collect_and_order_files`: the folder keys stably
sorted by `numeric_key(os.path.basename(folder))`. -/
def orderedFolders (rootName : String) (rootFiles : List String)
    (subs : DirForest) : List String :=
  stableSort (fun a b => leNatInf (numericKey (osBasename a)) (numericKey (osBasename b)))
    ((analysisFolderMap rootName rootFiles subs).map Prod.fst)

/-- `ordered_files_list` of `collect_and_order_files`:
`os.path.join(folder, filename)` for each folder in order. -/
def orderedFilesList (rootName : String) (rootFiles : List String)
    (subs : DirForest) : List String :=
  ((orderedFolders rootName rootFiles subs).map (fun folder =>
    (lookupGroup (analysisFolderMap rootName rootFiles subs) folder).map
      (fun fn => osJoin folder fn))).flatten

/-- Removing every `rollback`-named directory together with its entire
subtree (what full pruning means). -/
def pruneForest : DirForest → DirForest
  | DirForest.nil => DirForest.nil
  | DirForest.dir name fs subs rest =>
    if containsRollback name then pruneForest rest
    else DirForest.dir name fs (pruneForest subs) (pruneForest rest)

/-- Emptying the file list of every `rollback`-named directory while
keeping its subtree (what the analysis collector actually ignores). -/
def clearRollbackFiles : DirForest → DirForest
  | DirForest.nil => DirForest.nil
  | DirForest.dir name fs subs rest =>
    DirForest.dir name (if containsRollback name then [] else fs)
      (clearRollbackFiles subs) (clearRollbackFiles rest)

/-! ### Statements taken from the spec's claims (for comparison only) -/

/-- The ordering claim C4 asserts for `collect_files_for_manifest`:
lexicographic on `(parent folder of the relative path, numeric prefix,
filename)`.  Modelled from the claim's words, to be compared with the
code's `manifestLe`. -/
def claimedManifestLe (x y : FileData) : Bool :=
  lex2 strLe (lex2 leNatInf strLe)
    (posixParent x.relative_path, x.prefix_num, x.filename)
    (posixParent y.relative_path, y.prefix_num, y.filename)

/-- The three input files of claim C1: `10_create_table.sql`,
`02_pkg.pks` and `02_pkg.pkb`, all in the same original folder `A`,
as `collect_files_for_manifest` would record them. -/
def c1Files : List FileData :=
  [{ absolute_path := "/tmp/x/A/10_create_table.sql"
     relative_path := "A/10_create_table.sql"
     parent_folder_name := "A"
     prefix_num := some 10
     extension := ".sql"
     filename := "10_create_table.sql" },
   { absolute_path := "/tmp/x/A/02_pkg.pks"
     relative_path := "A/02_pkg.pks"
     parent_folder_name := "A"
     prefix_num := some 2
     extension := ".pks"
     filename := "02_pkg.pks" },
   { absolute_path := "/tmp/x/A/02_pkg.pkb"
     relative_path := "A/02_pkg.pkb"
     parent_folder_name := "A"
     prefix_num := some 2
     extension := ".pkb"
     filename := "02_pkg.pkb" }]

/-! ### General lemmas about the sorting and ordering combinators -/

theorem insertSorted_perm (le : α → α → Bool) (a : α) (l : List α) :
    List.Perm (insertSorted le a l) (a :: l) := by
  induction l with
  | nil => simp [insertSorted]
  | cons b bs ih =>
    simp only [insertSorted]
    by_cases h : le a b = true
    · simp [h]
    · simp only [h]
      exact (ih.cons b).trans (List.Perm.swap a b bs)

theorem stableSort_perm (le : α → α → Bool) (l : List α) :
    List.Perm (stableSort le l) l := by
  induction l with
  | nil => simp [stableSort]
  | cons a as ih =>
    exact (insertSorted_perm le a (stableSort le as)).trans (ih.cons a)

theorem mem_stableSort (le : α → α → Bool) (l : List α) (a : α) :
    a ∈ stableSort le l ↔ a ∈ l :=
  (stableSort_perm le l).mem_iff

theorem insertSorted_pairwise (le : α → α → Bool)
    (htot : ∀ a b, le a b = true ∨ le b a = true)
    (htrans : ∀ a b c, le a b = true → le b c = true → le a c = true)
    (a : α) (l : List α)
    (hl : l.Pairwise (fun x y => le x y = true)) :
    (insertSorted le a l).Pairwise (fun x y => le x y = true) := by
  induction l with
  | nil => simp [insertSorted]
  | cons b bs ih =>
    rw [List.pairwise_cons] at hl
    obtain ⟨hb, hbs⟩ := hl
    simp only [insertSorted]
    by_cases h : le a b = true
    · rw [if_pos h, List.pairwise_cons]
      refine ⟨?_, ?_⟩
      · intro y hy
        rcases List.mem_cons.mp hy with rfl | hy
        · exact h
        · exact htrans a b y h (hb y hy)
      · rw [List.pairwise_cons]
        exact ⟨hb, hbs⟩
    · rw [if_neg h, List.pairwise_cons]
      refine ⟨?_, ih hbs⟩
      intro y hy
      rw [(insertSorted_perm le a bs).mem_iff] at hy
      rcases List.mem_cons.mp hy with rfl | hy
      · rcases htot y b with h' | h'
        · exact absurd h' h
        · exact h'
      · exact hb y hy

theorem stableSort_pairwise (le : α → α → Bool)
    (htot : ∀ a b, le a b = true ∨ le b a = true)
    (htrans : ∀ a b c, le a b = true → le b c = true → le a c = true)
    (l : List α) :
    (stableSort le l).Pairwise (fun x y => le x y = true) := by
  induction l with
  | nil => simp [stableSort]
  | cons a as ih => exact insertSorted_pairwise le htot htrans a _ ih

/-- Two sorted permutations of each other are equal when the order is
antisymmetric on the elements involved. -/
theorem sorted_perm_eq (le : α → α → Bool) (l₁ : List α) :
    ∀ l₂ : List α, l₁.Perm l₂ →
      l₁.Pairwise (fun x y => le x y = true) →
      l₂.Pairwise (fun x y => le x y = true) →
      (∀ a ∈ l₁, ∀ b ∈ l₁, le a b = true → le b a = true → a = b) →
      l₁ = l₂ := by
  induction l₁ with
  | nil =>
    intro l₂ hp _ _ _
    exact (List.Perm.eq_nil hp.symm).symm
  | cons a as ih =>
    intro l₂ hp hs₁ hs₂ ha
    cases l₂ with
    | nil => exact absurd hp.eq_nil (by simp)
    | cons b bs =>
      rw [List.pairwise_cons] at hs₁ hs₂
      obtain ⟨ha1, hs₁'⟩ := hs₁
      obtain ⟨hb1, hs₂'⟩ := hs₂
      have hab : a = b := by
        by_cases heq : a = b
        · exact heq
        · have hamem : a ∈ b :: bs := hp.mem_iff.mp (List.mem_cons_self a as)
          have hbmem : b ∈ a :: as := hp.symm.mem_iff.mp (List.mem_cons_self b bs)
          have hbas : b ∈ as := by
            rcases List.mem_cons.mp hbmem with h | h
            · exact absurd h.symm heq
            · exact h
          have habs : a ∈ bs := by
            rcases List.mem_cons.mp hamem with h | h
            · exact absurd h heq
            · exact h
          exact ha a (List.mem_cons_self a as) b hbmem (ha1 b hbas) (hb1 a habs)
      subst hab
      have hperm : as.Perm bs := hp.cons_inv
      have : as = bs :=
        ih bs hperm hs₁' hs₂'
          (fun x hx y hy => ha x (List.mem_cons_of_mem a hx) y (List.mem_cons_of_mem a hy))
      rw [this]

/-! ### Order properties of the Python sort keys -/

theorem clLe_total : ∀ a b : List Char, clLe a b = true ∨ clLe b a = true
  | [], _ => Or.inl rfl
  | _ :: _, [] => Or.inr rfl
  | a :: as, b :: bs => by
    simp only [clLe]
    rcases Nat.lt_trichotomy a.toNat b.toNat with h | h | h
    · left; simp [h]
    · have h1 : ¬ a.toNat < b.toNat := by omega
      have h2 : ¬ b.toNat < a.toNat := by omega
      simpa [h1, h2] using clLe_total as bs
    · right; simp [h]

theorem clLe_trans : ∀ a b c : List Char,
    clLe a b = true → clLe b c = true → clLe a c = true
  | [], _, _, _, _ => rfl
  | _ :: _, [], _, h1, _ => by simp [clLe] at h1
  | _ :: _, _ :: _, [], _, h2 => by simp [clLe] at h2
  | a :: as, b :: bs, c :: cs, h1, h2 => by
    simp only [clLe] at h1 h2 ⊢
    rcases Nat.lt_trichotomy a.toNat b.toNat with hab | hab | hab
    · rcases Nat.lt_trichotomy b.toNat c.toNat with hbc | hbc | hbc
      · have : a.toNat < c.toNat := by omega
        simp [this]
      · have : a.toNat < c.toNat := by omega
        simp [this]
      · simp [Nat.lt_asymm hbc, hbc] at h2
    · rcases Nat.lt_trichotomy b.toNat c.toNat with hbc | hbc | hbc
      · have : a.toNat < c.toNat := by omega
        simp [this]
      · have hac : a.toNat = c.toNat := by omega
        have h1' : clLe as bs = true := by
          simpa [Nat.lt_irrefl, hab] using h1
        have h2' : clLe bs cs = true := by
          simpa [Nat.lt_irrefl, hbc] using h2
        simpa [hac, Nat.lt_irrefl] using clLe_trans as bs cs h1' h2'
      · simp [Nat.lt_asymm hbc, hbc] at h2
    · simp [Nat.lt_asymm hab, hab] at h1

theorem clLe_anti : ∀ a b : List Char, clLe a b = true → clLe b a = true → a = b
  | [], [], _, _ => rfl
  | [], _ :: _, _, h2 => by simp [clLe] at h2
  | _ :: _, [], h1, _ => by simp [clLe] at h1
  | a :: as, b :: bs, h1, h2 => by
    simp only [clLe] at h1 h2
    rcases Nat.lt_trichotomy a.toNat b.toNat with hab | hab | hab
    · simp [Nat.lt_asymm hab, hab] at h2
    · have hchar : a = b := Char.ext (UInt32.ext hab)
      have h1' : clLe as bs = true := by simpa [Nat.lt_irrefl, hab] using h1
      have h2' : clLe bs as = true := by simpa [Nat.lt_irrefl, hab] using h2
      rw [hchar, clLe_anti as bs h1' h2']
    · simp [Nat.lt_asymm hab, hab] at h1

theorem strLe_total (a b : String) : strLe a b = true ∨ strLe b a = true :=
  clLe_total a.data b.data

theorem strLe_trans (a b c : String) :
    strLe a b = true → strLe b c = true → strLe a c = true :=
  clLe_trans a.data b.data c.data

theorem strLe_anti (a b : String) :
    strLe a b = true → strLe b a = true → a = b := by
  intro h1 h2
  exact congrArg String.mk (clLe_anti a.data b.data h1 h2)

theorem leNatInf_total : ∀ a b : Option Nat, leNatInf a b = true ∨ leNatInf b a = true
  | some a, some b => by simp [leNatInf]; omega
  | some _, none => Or.inl rfl
  | none, some _ => Or.inr rfl
  | none, none => Or.inl rfl

theorem leNatInf_trans : ∀ a b c : Option Nat,
    leNatInf a b = true → leNatInf b c = true → leNatInf a c = true
  | some a, some b, some c, h1, h2 => by
    simp [leNatInf] at h1 h2 ⊢; omega
  | some _, some _, none, _, _ => rfl
  | some _, none, some _, _, h2 => by simp [leNatInf] at h2
  | some _, none, none, _, _ => rfl
  | none, some _, _, h1, _ => by simp [leNatInf] at h1
  | none, none, some _, _, h2 => by simp [leNatInf] at h2
  | none, none, none, _, _ => rfl

theorem leNatInf_anti : ∀ a b : Option Nat,
    leNatInf a b = true → leNatInf b a = true → a = b
  | some a, some b, h1, h2 => by
    simp [leNatInf] at h1 h2
    have : a = b := by omega
    rw [this]
  | some _, none, _, h2 => by simp [leNatInf] at h2
  | none, some _, h1, _ => by simp [leNatInf] at h1
  | none, none, _, _ => rfl

theorem boolLe_total (a b : Bool) : boolLe a b = true ∨ boolLe b a = true := by
  cases a <;> cases b <;> simp [boolLe]

theorem lex2_total {α β : Type} [DecidableEq α]
    (leA : α → α → Bool) (leB : β → β → Bool)
    (htA : ∀ a b, leA a b = true ∨ leA b a = true)
    (htB : ∀ a b, leB a b = true ∨ leB b a = true)
    (p q : α × β) : lex2 leA leB p q = true ∨ lex2 leA leB q p = true := by
  unfold lex2
  by_cases h : p.1 = q.1
  · simpa [h] using htB p.2 q.2
  · have h' : q.1 ≠ p.1 := fun hx => h hx.symm
    simpa [h, h'] using htA p.1 q.1

theorem lex2_trans {α β : Type} [DecidableEq α]
    (leA : α → α → Bool) (leB : β → β → Bool)
    (htrA : ∀ a b c, leA a b = true → leA b c = true → leA a c = true)
    (haA : ∀ a b, leA a b = true → leA b a = true → a = b)
    (htrB : ∀ a b c, leB a b = true → leB b c = true → leB a c = true)
    (p q r : α × β) :
    lex2 leA leB p q = true → lex2 leA leB q r = true → lex2 leA leB p r = true := by
  unfold lex2
  by_cases hpq : p.1 = q.1 <;> by_cases hqr : q.1 = r.1
  · simp only [hpq, hqr, if_pos rfl]
    intro h1 h2
    simpa [hpq.trans hqr] using htrB p.2 q.2 r.2 h1 h2
  · have hpr : p.1 ≠ r.1 := fun hx => hqr (hpq ▸ hx)
    simp only [if_pos hpq, if_neg hqr, if_neg hpr]
    intro _ h2
    simpa [hpq] using h2
  · have hpr : p.1 ≠ r.1 := fun hx => hpq (hx.trans hqr.symm)
    simp only [if_neg hpq, if_pos hqr, if_neg hpr]
    intro h1 _
    simpa [hqr] using h1
  · intro h1 h2
    rw [if_neg hpq] at h1
    rw [if_neg hqr] at h2
    by_cases hpr : p.1 = r.1
    · exfalso
      apply hpq
      apply haA p.1 q.1 h1
      rw [hpr]
      exact h2
    · rw [if_neg hpr]
      exact htrA p.1 q.1 r.1 h1 h2

theorem lex2_anti {α β : Type} [DecidableEq α]
    (leA : α → α → Bool) (leB : β → β → Bool)
    (haA : ∀ a b, leA a b = true → leA b a = true → a = b)
    (haB : ∀ a b, leB a b = true → leB b a = true → a = b)
    (p q : α × β) :
    lex2 leA leB p q = true → lex2 leA leB q p = true → p = q := by
  unfold lex2
  by_cases h : p.1 = q.1
  · have h' : q.1 = p.1 := h.symm
    simp only [if_pos h, if_pos h']
    intro h1 h2
    have := haB p.2 q.2 h1 h2
    exact Prod.ext h this
  · have h' : q.1 ≠ p.1 := fun hx => h hx.symm
    simp only [if_neg h, if_neg h']
    intro h1 h2
    exact absurd (haA p.1 q.1 h1 h2) h

/-! ### Helper lemmas about the embedded functions -/

theorem joinLines_pair (a : String) : joinLines [a, ""] = a ++ "\n" := by
  simp [joinLines]

theorem lastIdxMatching_eq_none (lines : List String)
    (h : ∀ l ∈ lines, endPatternMatches l = false) :
    lastIdxMatching lines = none := by
  induction lines with
  | nil => rfl
  | cons l ls ih =>
    have hrec : lastIdxMatching ls = none :=
      ih (fun x hx => h x (List.mem_cons_of_mem l hx))
    simp [lastIdxMatching, hrec, h l (List.mem_cons_self l ls)]

theorem lastIdxMatching_of (lines : List String) :
    ∀ (i : Nat) (hi : i < lines.length),
      endPatternMatches (lines.get ⟨i, hi⟩) = true →
      (∀ (k : Nat) (hk : k < lines.length), i < k →
        endPatternMatches (lines.get ⟨k, hk⟩) = false) →
      lastIdxMatching lines = some i := by
  induction lines with
  | nil => intro i hi; exact absurd hi (by simp)
  | cons l ls ih =>
    intro i hi hmatch hlast
    cases i with
    | zero =>
      have hnone : lastIdxMatching ls = none := by
        apply lastIdxMatching_eq_none
        intro x hx
        obtain ⟨⟨j, hj⟩, hget⟩ := List.mem_iff_get.mp hx
        have := hlast (j + 1) (by simpa using Nat.succ_lt_succ hj) (Nat.succ_pos j)
        rw [← hget]
        simpa using this
      simpa [lastIdxMatching, hnone] using hmatch
    | succ j =>
      have hj : j < ls.length := by simpa using hi
      have h1 : lastIdxMatching ls = some j := by
        apply ih j hj (by simpa using hmatch)
        intro k hk hlt
        have := hlast (k + 1) (by simpa using Nat.succ_lt_succ hk) (Nat.succ_lt_succ hlt)
        simpa using this
      simp [lastIdxMatching, h1]

theorem endPatternMatches_append (s : String) :
    endPatternMatches (s ++ "END;") = true := by
  have hdata : (s ++ "END;").data = s.data ++ ['E', 'N', 'D', ';'] := by
    rw [String.data_append]
  simp [endPatternMatches, hdata, endPatternMatchesRev, List.dropWhile, isPySpace,
    hasEndSuffixRev]

theorem categoryBlock_none_of (schemaL : String) (getCat : FileData → Option String)
    (cat : String) (folderFiles : List FileData)
    (h : ∀ fd ∈ folderFiles, getCat fd = none) :
    categoryBlock schemaL getCat cat folderFiles = none := by
  unfold categoryBlock
  have hfil : folderFiles.filter (fun fd => getCat fd == some cat) = [] :=
    List.filter_eq_nil_iff.mpr (fun fd hfd => by simp [h fd hfd])
  simp [hfil]

theorem emitFolder_nil_of (schemaL : String) (getCat : FileData → Option String)
    (isFirst : Bool) (folderFiles : List FileData)
    (h : ∀ fd ∈ folderFiles, getCat fd = none) :
    emitFolder schemaL getCat isFirst folderFiles = [] := by
  unfold emitFolder
  have hblocks : categoryOrder.filterMap
      (fun cat => categoryBlock schemaL getCat cat folderFiles) = [] :=
    List.filterMap_eq_nil_iff.mpr
      (fun cat _ => categoryBlock_none_of schemaL getCat cat folderFiles h)
  simp [hblocks]

theorem emitFolders_nil_of (schemaL : String) (getCat : FileData → Option String)
    (files : List FileData) (h : ∀ fd ∈ files, getCat fd = none) :
    ∀ (b : Bool) (sf : List String), emitFolders schemaL getCat b sf files = [] := by
  intro b sf
  induction sf generalizing b with
  | nil => rfl
  | cons f rest ih =>
    show emitFolder _ _ _ _ ++ emitFolders _ _ false rest files = []
    rw [emitFolder_nil_of _ _ _ _
      (fun fd hfd => h fd (List.mem_of_mem_filter hfd)), ih false]
    rfl

theorem manifestLe_total (x y : FileData) :
    manifestLe x y = true ∨ manifestLe y x = true :=
  lex2_total _ _ strLe_total (lex2_total _ _ leNatInf_total strLe_total) _ _

theorem manifestLe_trans (x y z : FileData) :
    manifestLe x y = true → manifestLe y z = true → manifestLe x z = true :=
  lex2_trans _ _ strLe_trans strLe_anti
    (lex2_trans _ _ leNatInf_trans leNatInf_anti strLe_trans) _ _ _

theorem collectManifestWalk_prune (allowed : List String) (absRoot : String) :
    ∀ (relPre : String) (f : DirForest),
      collectManifestWalk allowed absRoot relPre (pruneForest f) =
        collectManifestWalk allowed absRoot relPre f := by
  intro relPre f
  induction f generalizing relPre with
  | nil => rfl
  | dir name fs subs rest ihsubs ihrest =>
    by_cases h : containsRollback name = true
    · simp [pruneForest, h, collectManifestWalk, ihrest relPre]
    · simp only [pruneForest, h, if_neg, Bool.not_eq_true, ite_false]
      simp [collectManifestWalk, h, ihsubs (relJoin relPre name), ihrest relPre]

theorem analysisWalk_clear :
    ∀ (relPre : String) (f : DirForest),
      analysisWalk relPre (clearRollbackFiles f) = analysisWalk relPre f := by
  intro relPre f
  induction f generalizing relPre with
  | nil => rfl
  | dir name fs subs rest ihsubs ihrest =>
    by_cases h : containsRollback name = true
    · simp [clearRollbackFiles, h, analysisWalk, validSorted, stableSort,
        ihsubs (relJoin relPre name), ihrest relPre]
    · simp [clearRollbackFiles, h, analysisWalk,
        ihsubs (relJoin relPre name), ihrest relPre]

/-! ### Claim C1 -/

set_option maxRecDepth 4000 in
/-- C1, as stated, is false: the generators emit no blank line between the
`scripts` block and the `packages` block of the same original folder `A`
(the blank-line branch requires the current folder not to be the first
emitted folder, and `A` is the only folder here).  The claimed text, with
that blank line, is not produced by either revision. -/
theorem c1_counterexample :
    generateSteam "HR" "F_X" c1Files ≠
      "SCHEMA=HR\n\n-- Ejecucion de scripts sql\ndatabase/plsql/hr/scripts/10_create_table.sql\n\n-- Ejecucion de script creacion de packages\ndatabase/plsql/hr/packages/02_pkg.pks\n-- Ejecucion de script creacion de packagesBodies\ndatabase/plsql/hr/packagesbodies/02_pkg.pkb" ∧
    generateApolo "HR" "F_X" c1Files ≠
      "SCHEMA=HR\n\n-- Ejecucion de scripts sql\ndatabase/plsql/hr/scripts/10_create_table.sql\n\n-- Ejecucion de script creacion de packages\ndatabase/plsql/hr/packages/02_pkg.pks\n-- Ejecucion de script creacion de packagesBodies\ndatabase/plsql/hr/packagesbodies/02_pkg.pkb" := by
  constructor <;> decide

set_option maxRecDepth 4000 in
/-- C1 (amended): for the input files `10_create_table.sql`, `02_pkg.pks`
and `02_pkg.pkb`, all in folder `A`, with schema `HR`, both revisions of
the manifest generator produce `SCHEMA=HR`, a blank line, the scripts
header and entry, then — with no separating blank line, since all three
blocks belong to the same (first) folder — the packages header and entry
and the packagesBodies header and entry. -/
theorem c1_manifest_text :
    generateSteam "HR" "F_X" c1Files =
      "SCHEMA=HR\n\n-- Ejecucion de scripts sql\ndatabase/plsql/hr/scripts/10_create_table.sql\n-- Ejecucion de script creacion de packages\ndatabase/plsql/hr/packages/02_pkg.pks\n-- Ejecucion de script creacion de packagesBodies\ndatabase/plsql/hr/packagesbodies/02_pkg.pkb" ∧
    generateApolo "HR" "F_X" c1Files =
      "SCHEMA=HR\n\n-- Ejecucion de scripts sql\ndatabase/plsql/hr/scripts/10_create_table.sql\n-- Ejecucion de script creacion de packages\ndatabase/plsql/hr/packages/02_pkg.pks\n-- Ejecucion de script creacion de packagesBodies\ndatabase/plsql/hr/packagesbodies/02_pkg.pkb" := by
  constructor <;> decide

/-! ### Claim C3 -/

/-- C3, as stated, is false for the analysis collector: in the tree
`root/rollback/sub/x.sql` the file `x.sql` lies inside a subdirectory of a
`rollback`-named directory, yet `collect_and_order_files` yields it —
only the manifest collector prunes the whole subtree. -/
theorem c3_counterexample :
    "rollback/sub/x.sql" ∈ orderedFilesList "root" []
      (DirForest.dir "rollback" []
        (DirForest.dir "sub" ["x.sql"] DirForest.nil DirForest.nil) DirForest.nil) ∧
    collectFilesForManifest allowedManifestSteam "/r" "root" []
      (DirForest.dir "rollback" []
        (DirForest.dir "sub" ["x.sql"] DirForest.nil DirForest.nil) DirForest.nil) = [] := by
  constructor <;> decide

/-- C3 (amended): the manifest collector prunes `rollback`-named
directories entirely — its result is unchanged when every such directory
is deleted together with its whole subtree — while the analysis collector
only ignores the files lying directly in a `rollback`-named directory:
its result is unchanged when those files are deleted, the subtrees kept. -/
theorem c3_pruning (allowed : List String) (absRoot rootName : String)
    (rootFiles : List String) (subs : DirForest) :
    collectFilesForManifest allowed absRoot rootName rootFiles (pruneForest subs) =
      collectFilesForManifest allowed absRoot rootName rootFiles subs ∧
    orderedFilesList rootName rootFiles (clearRollbackFiles subs) =
      orderedFilesList rootName rootFiles subs := by
  constructor
  · unfold collectFilesForManifest collectManifestRaw
    rw [collectManifestWalk_prune]
  · unfold orderedFilesList orderedFolders analysisFolderMap
    rw [analysisWalk_clear]

/-! ### Claim C4 -/

/-- C4, as stated, is false: the sort key of `collect_files_for_manifest`
is the full relative path, not its parent, so within folder `a` the file
`10_z.sql` precedes `2_a.sql` (string order `"1" < "2"`), violating the
claimed (parent, numeric prefix, filename) order. -/
theorem c4_counterexample :
    ¬ (collectFilesForManifest allowedManifestSteam "/tmp/extract" "root" []
        (DirForest.dir "a" ["2_a.sql", "10_z.sql"] DirForest.nil DirForest.nil)).Pairwise
      (fun x y => claimedManifestLe x y = true) := by decide

/-- C4 (amended): the list returned by `collect_files_for_manifest` is
ordered by the lexicographic triple (full relative path, numeric prefix,
filename) — the code's actual sort key, in which the relative path (not
the parent folder) is the primary component. -/
theorem c4_sorted_by_relpath (allowed : List String) (absRoot rootName : String)
    (rootFiles : List String) (subs : DirForest) :
    (collectFilesForManifest allowed absRoot rootName rootFiles subs).Pairwise
      (fun x y => manifestLe x y = true) :=
  stableSort_pairwise manifestLe manifestLe_total manifestLe_trans _

/-! ### Claim C5 -/

/-- C5, as stated, is false: for the collected file `Report.SQL` (whose
extension is lower-cased to `.sql` before analysis) the validation
produces no finding at all — in particular no blocking finding about a
lower-case extension requirement referencing the filename. -/
theorem c5_counterexample :
    analyzeFindings "Report.SQL" ["SELECT 1;"] = [] := by decide

/-- C5 (amended): validation performs no extension-case check.  A file
named `Report.SQL` yields zero findings whatever its content, and the
findings of any file depend only on the lower-cased extension, so the
case of the extension can never influence a finding. -/
theorem c5_no_case_check :
    (∀ lines : List String, analyzeFindings "Report.SQL" lines = []) ∧
    (∀ (n₁ n₂ : String) (lines : List String),
      pyLower (splitextExt n₁) = pyLower (splitextExt n₂) →
      analyzeFindings n₁ lines = analyzeFindings n₂ lines) := by
  constructor
  · intro lines; rfl
  · intro n₁ n₂ lines h
    unfold analyzeFindings
    rw [h]

/-- C5 witness: the amended theorem applied to the upper- and lower-case
spellings of the same name. -/
theorem c5_witness :
    analyzeFindings "Report.SQL" ["x"] = analyzeFindings "report.sql" ["x"] :=
  c5_no_case_check.2 "Report.SQL" "report.sql" ["x"] (by decide)

/-! ### Claim C6 -/

/-- C6: the two revisions' classifiers disagree exactly as claimed — a
file with a recognised non-`.sql` extension inside a script-like folder is
`scripts` for the steam revision but keeps its extension category in the
apolo revision, while outside script-like folders the classifiers agree. -/
theorem c6_classifier_divergence :
    (∃ fd : FileData, getCatSteam fd ≠ getCatApolo fd) ∧
    (∀ fd : FileData, isInScriptLike fd = true →
      pyLower fd.extension ∈ [".pks", ".pkb", ".prc", ".fnc", ".trg", ".vw"] →
      getCatSteam fd = some "scripts" ∧
      getCatApolo fd = firstCatByExt (pyLower fd.extension) ∧
      getCatSteam fd ≠ getCatApolo fd) ∧
    (∀ fd : FileData, isInScriptLike fd = false →
      getCatSteam fd = getCatApolo fd) := by
  refine ⟨⟨⟨"", "grants/a.pks", "grants", none, ".pks", "a.pks"⟩, by decide⟩, ?_, ?_⟩
  · intro fd hlike hmem
    simp only [List.mem_cons, List.not_mem_nil, or_false] at hmem
    have hsteam : getCatSteam fd = some "scripts" := by
      unfold getCatSteam
      rcases hmem with h | h | h | h | h | h <;> simp [hlike, h, allowedManifestSteam]
    refine ⟨hsteam, rfl, ?_⟩
    rw [hsteam]
    unfold getCatApolo
    rcases hmem with h | h | h | h | h | h <;> rw [h] <;> decide
  · intro fd hlike
    unfold getCatSteam getCatApolo
    simp [hlike]

/-- C6 witness: the divergence at the concrete file `grants/a.pks`. -/
theorem c6_witness :
    getCatSteam ⟨"", "grants/a.pks", "grants", none, ".pks", "a.pks"⟩ = some "scripts" ∧
    getCatApolo ⟨"", "grants/a.pks", "grants", none, ".pks", "a.pks"⟩ =
      firstCatByExt (pyLower ".pks") ∧
    getCatSteam ⟨"", "grants/a.pks", "grants", none, ".pks", "a.pks"⟩ ≠
      getCatApolo ⟨"", "grants/a.pks", "grants", none, ".pks", "a.pks"⟩ :=
  c6_classifier_divergence.2.1 ⟨"", "grants/a.pks", "grants", none, ".pks", "a.pks"⟩
    (by decide) (by decide)

/-! ### Claim C7 -/

/-- C7: for a terminator-checked extension, when no line of the file
matches the `END [identifier];` pattern the check is skipped entirely —
`check_slash_terminators` returns no finding. -/
theorem c7_no_end_no_finding (ext : String) (_hext : ext ∈ terminatorExts)
    (lines : List String) (h : ∀ l ∈ lines, endPatternMatches l = false) :
    checkSlashTerminators lines ext = [] := by
  simp [checkSlashTerminators, lastIdxMatching_eq_none lines h]

/-- C7 witness: a `.pks` file with no `END;`-shaped line yields no
finding. -/
theorem c7_witness :
    checkSlashTerminators ["SELECT 1 FROM dual"] ".pks" = [] :=
  c7_no_end_no_finding ".pks" (by decide) ["SELECT 1 FROM dual"] (by decide)

/-! ### Claim C8 -/

/-- C8: for every terminator-checked extension, the single line
`CREATE OR REPLACE PROCEDURE p IS BEGIN NULL; END p;` yields exactly one
blocking finding citing line 1, and the same content followed by a
line `/` yields zero findings. -/
theorem c8_terminator_boundary :
    ∀ ext ∈ terminatorExts,
      checkSlashTerminators
          ["CREATE OR REPLACE PROCEDURE p IS BEGIN NULL; END p;"] ext =
        ["Línea 1: Falta '/' al final después del bloque END;."] ∧
      checkSlashTerminators
          ["CREATE OR REPLACE PROCEDURE p IS BEGIN NULL; END p;", "/"] ext = [] := by
  decide

/-- C8 witness: the `.pks` instance. -/
theorem c8_witness :
    checkSlashTerminators
        ["CREATE OR REPLACE PROCEDURE p IS BEGIN NULL; END p;"] ".pks" =
      ["Línea 1: Falta '/' al final después del bloque END;."] ∧
    checkSlashTerminators
        ["CREATE OR REPLACE PROCEDURE p IS BEGIN NULL; END p;", "/"] ".pks" = [] :=
  c8_terminator_boundary ".pks" (by decide)

/-! ### Claim C9 -/

/-- C9: when no input file receives a manifest category, both revisions of
`generate_manifest_content` return exactly the `SCHEMA=` line with the
upper-cased schema followed by one blank line and nothing else. -/
theorem c9_empty_when_uncategorized (schema branch : String) (files : List FileData)
    (h1 : ∀ fd ∈ files, getCatSteam fd = none)
    (h2 : ∀ fd ∈ files, getCatApolo fd = none) :
    generateSteam schema branch files = "SCHEMA=" ++ pyUpper schema ++ "\n" ∧
    generateApolo schema branch files = "SCHEMA=" ++ pyUpper schema ++ "\n" := by
  constructor
  · show joinLines (("SCHEMA=" ++ pyUpper schema) :: "" ::
      emitFolders (pyLower schema) getCatSteam true
        (stableSort folderNameLe (firstOccurs (files.map folderOf))) files) = _
    rw [emitFolders_nil_of _ _ files h1 true _]
    exact joinLines_pair _
  · have hf : files.filter (fun fd => (getCatApolo fd).isSome) = [] :=
      List.filter_eq_nil_iff.mpr (fun fd hfd => by simp [h2 fd hfd])
    show joinLines (("SCHEMA=" ++ pyUpper schema) :: "" ::
      emitFolders (pyLower schema) getCatApolo true
        (stableSort folderNameLe (firstOccurs ((files.filter
          (fun fd => (getCatApolo fd).isSome)).map folderOf)))
        (files.filter (fun fd => (getCatApolo fd).isSome))) = _
    rw [hf]
    exact joinLines_pair _

/-- C9 witness: one uncategorisable file (`.xyz`) and schema `hr`. -/
theorem c9_witness :
    generateSteam "hr" "F_X" [⟨"", "x/a.xyz", "x", none, ".xyz", "a.xyz"⟩] =
      "SCHEMA=HR\n" ∧
    generateApolo "hr" "F_X" [⟨"", "x/a.xyz", "x", none, ".xyz", "a.xyz"⟩] =
      "SCHEMA=HR\n" :=
  c9_empty_when_uncategorized "hr" "F_X" [⟨"", "x/a.xyz", "x", none, ".xyz", "a.xyz"⟩]
    (by decide) (by decide)

/-! ### Claim C10 -/

/-- C10: the terminal-`END` pattern is found by a substring search with no
word boundary, so any line ending in `…END;` — e.g. `FRIEND;` — counts as
the terminal `END` statement: if it is the last matching line and no
terminating `/` follows (after blank and comment lines), the check emits
the missing-slash finding citing that line. -/
theorem c10_substring_end_match (ext : String) (hext : ext ∈ terminatorExts)
    (lines : List String) (i : Nat) (hi : i < lines.length) (s : String)
    (hline : lines.get ⟨i, hi⟩ = s ++ "END;")
    (hlast : ∀ (k : Nat) (hk : k < lines.length), i < k →
      endPatternMatches (lines.get ⟨k, hk⟩) = false)
    (hnoslash : slashFollows (lines.drop (i + 1)) = false) :
    checkSlashTerminators lines ext = [slashMissingMsg (i + 1)] := by
  have hm : endPatternMatches (lines.get ⟨i, hi⟩) = true := by
    rw [hline]; exact endPatternMatches_append s
  have hidx := lastIdxMatching_of lines i hi hm hlast
  simp only [checkSlashTerminators, hidx, hnoslash]
  simp [hext, hnoslash]

/-- C10 witness: the single-line file `FRIEND;` with extension `.pks`. -/
theorem c10_witness :
    checkSlashTerminators ["FRIEND;"] ".pks" = [slashMissingMsg 1] :=
  c10_substring_end_match ".pks" (by decide) ["FRIEND;"] 0 (by decide) "FRI"
    (by decide)
    (fun k hk hlt => by
      have h1 : k < 1 := by simpa using hk
      exact absurd h1 (by omega))
    (by decide)

/-! ### Claim C2: permutation invariance of the manifest generator -/

theorem mem_firstOccurs (l : List String) (x : String) :
    x ∈ firstOccurs l ↔ x ∈ l := by
  induction l with
  | nil => simp [firstOccurs]
  | cons a as ih =>
    simp only [firstOccurs, List.mem_cons, List.mem_filter]
    constructor
    · rintro (rfl | ⟨hx, -⟩)
      · exact Or.inl rfl
      · exact Or.inr (ih.mp hx)
    · rintro (rfl | hx)
      · exact Or.inl rfl
      · by_cases hxa : x = a
        · exact Or.inl hxa
        · exact Or.inr ⟨ih.mpr hx, by simpa using hxa⟩

theorem firstOccurs_nodup (l : List String) : (firstOccurs l).Nodup := by
  induction l with
  | nil => simp [firstOccurs]
  | cons a as ih =>
    rw [firstOccurs, List.nodup_cons]
    refine ⟨?_, List.Nodup.filter _ ih⟩
    intro hmem
    rw [List.mem_filter] at hmem
    simpa using hmem.2

theorem firstOccurs_perm {l₁ l₂ : List String} (h : l₁.Perm l₂) :
    (firstOccurs l₁).Perm (firstOccurs l₂) :=
  (List.perm_ext_iff_of_nodup (firstOccurs_nodup l₁) (firstOccurs_nodup l₂)).mpr
    (fun x => by rw [mem_firstOccurs, mem_firstOccurs]; exact h.mem_iff)

theorem perm_isEmpty {α : Type} {l₁ l₂ : List α} (h : l₁.Perm l₂) :
    l₁.isEmpty = l₂.isEmpty := by
  cases l₁ <;> cases l₂ <;> simp_all

theorem folderNameLe_total (a b : String) :
    folderNameLe a b = true ∨ folderNameLe b a = true :=
  leNatInf_total _ _

theorem folderNameLe_trans (a b c : String) :
    folderNameLe a b = true → folderNameLe b c = true → folderNameLe a c = true :=
  leNatInf_trans _ _ _

theorem catFileLe_total (cat : String) (x y : FileData) :
    catFileLe cat x y = true ∨ catFileLe cat y x = true := by
  unfold catFileLe
  by_cases h : (cat = "packages" || cat = "packagesbodies") = true
  · rw [if_pos h, if_pos h]
    exact lex2_total _ _ boolLe_total (lex2_total _ _ leNatInf_total strLe_total) _ _
  · rw [if_neg h, if_neg h]
    exact lex2_total _ _ leNatInf_total strLe_total _ _

theorem catFileLe_trans (cat : String) (x y z : FileData) :
    catFileLe cat x y = true → catFileLe cat y z = true → catFileLe cat x z = true := by
  unfold catFileLe
  by_cases h : (cat = "packages" || cat = "packagesbodies") = true
  · rw [if_pos h, if_pos h, if_pos h]
    exact lex2_trans _ _ boolLe_trans boolLe_anti
      (lex2_trans _ _ leNatInf_trans leNatInf_anti strLe_trans) _ _ _
  · rw [if_neg h, if_neg h, if_neg h]
    exact lex2_trans _ _ leNatInf_trans leNatInf_anti strLe_trans _ _ _

theorem catFileLe_anti_key (cat : String) (x y : FileData)
    (h1 : catFileLe cat x y = true) (h2 : catFileLe cat y x = true) :
    x.prefix_num = y.prefix_num ∧ x.filename = y.filename := by
  unfold catFileLe at h1 h2
  by_cases h : (cat = "packages" || cat = "packagesbodies") = true
  · rw [if_pos h] at h1 h2
    have heq := lex2_anti _ _ boolLe_anti
      (lex2_anti _ _ leNatInf_anti strLe_anti) _ _ h1 h2
    have hsnd := congrArg Prod.snd heq
    exact ⟨congrArg Prod.fst hsnd, congrArg Prod.snd hsnd⟩
  · rw [if_neg h] at h1 h2
    have heq := lex2_anti _ _ leNatInf_anti strLe_anti _ _ h1 h2
    exact ⟨congrArg Prod.fst heq, congrArg Prod.snd heq⟩

theorem sortedFolders_eq (l₁ l₂ : List FileData) (hp : l₁.Perm l₂)
    (hfold : ∀ f ∈ l₁.map folderOf, ∀ g ∈ l₁.map folderOf,
      numericKey (pathName f) = numericKey (pathName g) → f = g) :
    stableSort folderNameLe (firstOccurs (l₁.map folderOf)) =
      stableSort folderNameLe (firstOccurs (l₂.map folderOf)) := by
  apply sorted_perm_eq folderNameLe
  · exact ((stableSort_perm _ _).trans (firstOccurs_perm (hp.map folderOf))).trans
      (stableSort_perm _ _).symm
  · exact stableSort_pairwise _ folderNameLe_total folderNameLe_trans _
  · exact stableSort_pairwise _ folderNameLe_total folderNameLe_trans _
  · intro a ha b hb hab hba
    rw [mem_stableSort, mem_firstOccurs] at ha hb
    exact hfold a ha b hb (leNatInf_anti _ _ hab hba)

theorem sortedCatFiles_eq (getCat : FileData → Option String)
    (l₁ l₂ : List FileData) (hp : l₁.Perm l₂)
    (hfile : ∀ x ∈ l₁, ∀ y ∈ l₁, folderOf x = folderOf y →
      getCat x = getCat y → x.prefix_num = y.prefix_num →
      x.filename = y.filename → x = y)
    (f cat : String) :
    stableSort (catFileLe cat)
      ((l₁.filter (fun fd => folderOf fd == f)).filter
        (fun fd => getCat fd == some cat)) =
    stableSort (catFileLe cat)
      ((l₂.filter (fun fd => folderOf fd == f)).filter
        (fun fd => getCat fd == some cat)) := by
  apply sorted_perm_eq (catFileLe cat)
  · exact (stableSort_perm _ _).trans
      (((hp.filter _).filter _).trans (stableSort_perm _ _).symm)
  · exact stableSort_pairwise _ (catFileLe_total cat) (catFileLe_trans cat) _
  · exact stableSort_pairwise _ (catFileLe_total cat) (catFileLe_trans cat) _
  · intro a ha b hb hab hba
    rw [mem_stableSort] at ha hb
    obtain ⟨key1, key2⟩ := catFileLe_anti_key cat a b hab hba
    rw [List.mem_filter] at ha hb
    obtain ⟨ha', hacat⟩ := ha
    obtain ⟨hb', hbcat⟩ := hb
    rw [List.mem_filter] at ha' hb'
    obtain ⟨ha1, haf⟩ := ha'
    obtain ⟨hb1, hbf⟩ := hb'
    have hfolder : folderOf a = folderOf b := by
      have e1 : folderOf a = f := by simpa using haf
      have e2 : folderOf b = f := by simpa using hbf
      rw [e1, e2]
    have hcat : getCat a = getCat b := by
      have e1 : getCat a = some cat := by simpa using hacat
      have e2 : getCat b = some cat := by simpa using hbcat
      rw [e1, e2]
    exact hfile a ha1 b hb1 hfolder hcat key1 key2

theorem emitFolders_congr (schemaL : String) (getCat : FileData → Option String)
    (l₁ l₂ : List FileData) (hp : l₁.Perm l₂)
    (hsorted : ∀ f cat, stableSort (catFileLe cat)
        ((l₁.filter (fun fd => folderOf fd == f)).filter
          (fun fd => getCat fd == some cat)) =
      stableSort (catFileLe cat)
        ((l₂.filter (fun fd => folderOf fd == f)).filter
          (fun fd => getCat fd == some cat))) :
    ∀ (b : Bool) (sf : List String),
      emitFolders schemaL getCat b sf l₁ = emitFolders schemaL getCat b sf l₂ := by
  intro b sf
  induction sf generalizing b with
  | nil => rfl
  | cons f rest ih =>
    show emitFolder _ _ b _ ++ emitFolders _ _ false rest l₁ =
      emitFolder _ _ b _ ++ emitFolders _ _ false rest l₂
    rw [ih false]
    congr 1
    unfold emitFolder
    have hblocks : categoryOrder.filterMap
        (fun cat => categoryBlock schemaL getCat cat
          (l₁.filter (fun fd => folderOf fd == f))) =
      categoryOrder.filterMap
        (fun cat => categoryBlock schemaL getCat cat
          (l₂.filter (fun fd => folderOf fd == f))) := by
      apply List.filterMap_congr
      intro cat _
      unfold categoryBlock
      have hperm : ((l₁.filter (fun fd => folderOf fd == f)).filter
          (fun fd => getCat fd == some cat)).Perm
        ((l₂.filter (fun fd => folderOf fd == f)).filter
          (fun fd => getCat fd == some cat)) := (hp.filter _).filter _
      simp only [hsorted f cat, perm_isEmpty hperm]
    rw [hblocks]

/-- C2, as stated, is false: `generate_manifest_content` sorts the folder
blocks with a stable sort keyed only by the folder name's numeric prefix,
so two folders without a leading digit (`a` and `b`) keep the input
list's first-occurrence order, and the two permutations of the same
two-file multiset produce different texts. -/
theorem c2_counterexample :
    ([⟨"", "a/1_x.sql", "a", some 1, ".sql", "1_x.sql"⟩,
      ⟨"", "b/2_y.sql", "b", some 2, ".sql", "2_y.sql"⟩] : List FileData).Perm
      [⟨"", "b/2_y.sql", "b", some 2, ".sql", "2_y.sql"⟩,
       ⟨"", "a/1_x.sql", "a", some 1, ".sql", "1_x.sql"⟩] ∧
    generateSteam "S" "F_X"
        [⟨"", "a/1_x.sql", "a", some 1, ".sql", "1_x.sql"⟩,
         ⟨"", "b/2_y.sql", "b", some 2, ".sql", "2_y.sql"⟩] ≠
      generateSteam "S" "F_X"
        [⟨"", "b/2_y.sql", "b", some 2, ".sql", "2_y.sql"⟩,
         ⟨"", "a/1_x.sql", "a", some 1, ".sql", "1_x.sql"⟩] := by
  constructor
  · exact List.Perm.swap _ _ []
  · decide

/-- C2 (amended): `generate_manifest_content` (steam revision) gives
byte-identical output on permuted inputs provided the stable sorts meet
no ties: distinct parent folders occurring in the input must have
distinct numeric folder keys, and within one folder two records that get
the same category, numeric prefix and filename must be the same record. -/
theorem c2_perm_invariant (schema branch : String) (l₁ l₂ : List FileData)
    (hp : l₁.Perm l₂)
    (hfold : ∀ f ∈ l₁.map folderOf, ∀ g ∈ l₁.map folderOf,
      numericKey (pathName f) = numericKey (pathName g) → f = g)
    (hfile : ∀ x ∈ l₁, ∀ y ∈ l₁, folderOf x = folderOf y →
      getCatSteam x = getCatSteam y → x.prefix_num = y.prefix_num →
      x.filename = y.filename → x = y) :
    generateSteam schema branch l₁ = generateSteam schema branch l₂ := by
  show joinLines (("SCHEMA=" ++ pyUpper schema) :: "" ::
      emitFolders (pyLower schema) getCatSteam true
        (stableSort folderNameLe (firstOccurs (l₁.map folderOf))) l₁) =
    joinLines (("SCHEMA=" ++ pyUpper schema) :: "" ::
      emitFolders (pyLower schema) getCatSteam true
        (stableSort folderNameLe (firstOccurs (l₂.map folderOf))) l₂)
  rw [sortedFolders_eq l₁ l₂ hp hfold,
    emitFolders_congr (pyLower schema) getCatSteam l₁ l₂ hp
      (fun f cat => sortedCatFiles_eq getCatSteam l₁ l₂ hp hfile f cat) true _]

/-- C2 witness: two files in distinct numerically-keyed folders `1_a` and
`2_b`; the amended theorem makes the two input orders agree. -/
theorem c2_witness :
    generateSteam "S" "F_X"
        [⟨"", "1_a/x.sql", "1_a", none, ".sql", "x.sql"⟩,
         ⟨"", "2_b/y.sql", "2_b", none, ".sql", "y.sql"⟩] =
      generateSteam "S" "F_X"
        [⟨"", "2_b/y.sql", "2_b", none, ".sql", "y.sql"⟩,
         ⟨"", "1_a/x.sql", "1_a", none, ".sql", "x.sql"⟩] :=
  c2_perm_invariant "S" "F_X" _ _ (List.Perm.swap _ _ []) (by decide) (by decide)
